import Mathlib

/-!
Verification of the experiment data ingestion and cross-validation layer of
the emotion-detection repository, centred on
`src/data/watch_exp_reader.py` (`WatchExperimentDataReader`).

The Python code is shallowly embedded: numpy arrays become lists, the
per-class stratified K-fold selection becomes a pure function on a label
list, the window loop of `get_raw_data` becomes a pure function on a list
of CSV rows, and the `AssertionError` of `get_cross_validation_indices`
becomes an `Option` result.
-/

namespace WatchReader

/-- The data partition selector, mirroring `src.data.data_reader.Set`
(`TRAIN`, `VAL`, `TEST`, `ALL`). -/
inductive SplitSet
  | TRAIN
  | VAL
  | TEST
  | ALL
deriving DecidableEq, Repr

/-- Python slice `xs[lo:hi]` for natural bounds (numpy clamps out-of-range
bounds and returns the empty array when `lo ≥ hi`). -/
def sliceList {α : Type} (xs : List α) (lo hi : ℕ) : List α :=
  (xs.drop lo).take (hi - lo)

/-- Python element access `xs[i]` where `i` may be negative
(a negative index counts from the end of the list). -/
def pyGet (xs : List ℕ) (i : ℤ) : ℕ :=
  if i < 0 then xs.getD ((xs.length : ℤ) + i).toNat 0 else xs.getD i.toNat 0

/-- `np.where(raw_labels == emotion_index)[0]`: the positions of the label
array holding label `c`, in increasing order. -/
def emotion_samples (labels : List ℤ) (c : ℤ) : List ℕ :=
  (List.range labels.length).filter (fun idx => decide (labels.get? idx = some c))

/-- `np.linspace(0, n, K+1).astype(int)`: the `K + 1` fence posts
`⌊j·n/K⌋` for `j = 0..K`. -/
def borders (n K : ℕ) : List ℕ :=
  (List.range (K + 1)).map (fun j => j * n / K)

/-- The `split = split - 1 if split == 0 else split` correction applied to
the VAL and TRAIN fold numbers in `get_cross_validation_indices`. -/
def foldCorrect (s : ℤ) : ℤ := if s = 0 then s - 1 else s

/-- `emotion_samples[borders[s - 1] : borders[s]]`: fold slice `s` of the
class-`c` sample list, with Python negative indexing on `borders`. -/
def classSlice (labels : List ℤ) (K : ℕ) (c : ℤ) (s : ℤ) : List ℕ :=
  sliceList (emotion_samples labels c)
    (pyGet (borders (emotion_samples labels c).length K) (s - 1))
    (pyGet (borders (emotion_samples labels c).length K) s)

/-- The `Set.TEST` branch body of `get_cross_validation_indices` for one
emotion class: `test_split = cv_portions - cv_index`. -/
def testClassSlice (labels : List ℤ) (K : ℕ) (i : ℤ) (c : ℤ) : List ℕ :=
  classSlice labels K c ((K : ℤ) - i)

/-- The `Set.VAL` branch body for one emotion class:
`val_split = (cv_portions - 1 - cv_index) % cv_portions`, zero-corrected. -/
def valClassSlice (labels : List ℤ) (K : ℕ) (i : ℤ) (c : ℤ) : List ℕ :=
  classSlice labels K c (foldCorrect (((K : ℤ) - 1 - i) % (K : ℤ)))

/-- The `Set.TRAIN` branch body for one emotion class: folds
`j ∈ range(1, cv_portions - 1)`, each `(j - cv_index) % cv_portions`,
zero-corrected. -/
def trainClassSlices (labels : List ℤ) (K : ℕ) (i : ℤ) (c : ℤ) : List ℕ :=
  ((List.range' 1 (K - 2)).map
    (fun j => classSlice labels K c (foldCorrect (((j : ℤ) - i) % (K : ℤ))))).flatten

/-- The per-class selection of one non-ALL pass of
`get_cross_validation_indices`, by split kind. -/
def classBranch (labels : List ℤ) (w : SplitSet) (K : ℕ) (i : ℤ) (c : ℤ) :
    List ℕ :=
  match w with
  | SplitSet.TEST => testClassSlice labels K i c
  | SplitSet.VAL => valClassSlice labels K i c
  | SplitSet.TRAIN => trainClassSlices labels K i c
  | SplitSet.ALL => []

/-- One non-ALL pass of `get_cross_validation_indices`: collect the
per-class selections for the seven emotion classes into `all_indices` and
sort ascending (`all_indices.sort()`). -/
def cvSelect (labels : List ℤ) (w : SplitSet) (K : ℕ) (i : ℤ) : List ℕ :=
  List.insertionSort (· ≤ ·)
    (((List.range 7).map
      (fun c : ℕ => classBranch labels w K i (c : ℤ))).flatten)

/-- `WatchExperimentDataReader.get_cross_validation_indices`.  The `ALL`
branch returns early with the concatenation of the recursive `TEST`
selections over `cv_index = 0..cv_portions-1` (it neither checks the
assertion on the caller's `cv_index` nor sorts the concatenation); every
other branch first asserts `cv_portions - 1 >= cv_index >= 0`, and `none`
models the `AssertionError`. -/
def get_cross_validation_indices (labels : List ℤ) (w : SplitSet) (K : ℕ) (i : ℤ) :
    Option (List ℕ) :=
  if w = SplitSet.ALL then
    some (((List.range K).map
      (fun ci : ℕ => cvSelect labels SplitSet.TEST K (ci : ℤ))).flatten)
  else if (K : ℤ) - 1 ≥ i ∧ i ≥ 0 then
    some (cvSelect labels w K i)
  else
    none

/-- One row of a watch CSV, restricted to what `get_raw_data` reads from
it: the five selected feature column values and the value of the `Second`
column of that row. -/
structure CsvRow where
  features : List ℤ
  second : ℕ
deriving DecidableEq, Repr

instance : Inhabited CsvRow := ⟨⟨[], 0⟩⟩

/-- Python `range(start, stop, step)` for a positive `step`:
`start, start + step, start + 2·step, …` strictly below `stop`. -/
def pyRange (start stop step : ℕ) : List ℕ :=
  (List.range ((stop - start + step - 1) / step)).map (fun k => start + k * step)

/-- The window loop of `get_raw_data` for one present CSV file:
`for second in range(window, len(data), hop)` emits the feature slice
`data.values[second - window : second]` paired with the label
`all_labels[index, seconds.values[second][0]]`, where `index` is the
participant's position in `get_complete_data_indices()`. -/
def file_windows (all_labels : ℕ → ℕ → ℤ) (index window hop : ℕ)
    (csv : List CsvRow) : List (List (List ℤ) × ℤ) :=
  (pyRange window csv.length hop).map (fun second =>
    (sliceList (csv.map CsvRow.features) (second - window) second,
      all_labels index (csv.getD second default).second))

/-- The windows `get_raw_data` accumulates for one participant
(`part_data` / `part_labels`): concatenation over the emotion subfolders
of the present files' windows; a missing file warns and contributes
nothing. -/
def participant_windows (all_labels : ℕ → ℕ → ℤ) (index window hop : ℕ)
    (files : List (Option (List CsvRow))) : List (List (List ℤ) × ℤ) :=
  (files.map (fun f =>
    match f with
    | none => []
    | some csv => file_windows all_labels index window hop csv)).flatten

/-- `get_raw_data`: per participant, collect the windows of all present
files and keep only those whose label differs from the sentinel `-1`
(`part_data[part_labels != -1]`), then concatenate across participants.
(The `if part_data.size` guard only skips concatenating an empty
participant, which leaves the result unchanged.)  The first components are
`raw_data`, the second components `raw_labels`. -/
def raw_corpus (all_labels : ℕ → ℕ → ℤ) (window hop : ℕ)
    (participants : List (List (Option (List CsvRow)))) :
    List (List (List ℤ) × ℤ) :=
  (participants.enum.map (fun pe =>
    (participant_windows all_labels pe.1 window hop pe.2).filter
      (fun s => decide (s.2 ≠ -1)))).flatten

/-- Modelled from the spec: the parent class `ExperimentDataReader`
(`emotion_times`, `emotion_labels`) is not under `src/`.  The expected
schedule is a list of entries carrying an emotion id 0..6 and its
`start` / `end` seconds; the effective start of a slice is
`0 if start == 0 else start + 1`. -/
def expected_start (st : ℕ) : ℕ := if st = 0 then 0 else st + 1

/-- `get_raw_expected_labels`: pre-fill zeros and write each schedule
entry's emotion id over its `[expected_start, end)` second slice, every
participant row receiving the same values.  The schedule entries are
written in iteration order, later entries overwriting earlier ones. -/
def get_raw_expected_labels (schedule : List (Fin 7 × ℕ × ℕ)) : ℕ → ℕ → ℤ :=
  fun _p s =>
    schedule.foldl
      (fun acc e =>
        if expected_start e.2.1 ≤ s ∧ s < e.2.2 then ((e.1 : ℕ) : ℤ) else acc)
      0

/-- `get_raw_labels("both")`: compute the expected and the faceapi label
arrays and overwrite every disagreeing entry with the sentinel `-1`
(`expected[expected != faceapi] = -1`).  The faceapi array (loaded from
ground-truth JSON files by `get_raw_faceapi_labels`) is kept abstract. -/
def get_raw_labels_both (schedule : List (Fin 7 × ℕ × ℕ))
    (faceapi : ℕ → ℕ → ℤ) : ℕ → ℕ → ℤ :=
  fun p s =>
    if get_raw_expected_labels schedule p s = faceapi p s
    then get_raw_expected_labels schedule p s
    else -1

/-- `tf.keras.utils.to_categorical(label, num_classes=7)` for an
integer-valued label: the one-hot row of length 7. -/
def to_categorical (l : ℤ) : List ℤ :=
  (List.range 7).map (fun j => if (j : ℤ) = l then 1 else 0)

/-- `np.argmax` over a row: the position of the first maximum. -/
def argmaxList (xs : List ℤ) : ℕ :=
  (xs.enum.foldl (fun best cur => if best.2 < cur.2 then cur else best)
    (0, xs.headD 0)).1

/-- `dataset.batch(b)`: split the sample stream into consecutive batches
of size `b`, the last batch possibly shorter. -/
def batchList {α : Type} (b : ℕ) : List α → List (List α)
  | [] => []
  | x :: xs => (x :: xs).take b :: batchList b (xs.drop (b - 1))
termination_by l => l.length
decreasing_by simp [List.length_drop]; omega

/-- `WatchExperimentDataReader.get_labels`: force `shuffle = False`,
materialise the split with batch size 100 by iterating the unshuffled
seven-emotion dataset (the samples at the cross-validation indices, each
label one-hot encoded), and concatenate the per-batch `np.argmax` rows.
`labels` stands for the reader's `raw_labels`. -/
def get_labels (labels : List ℤ) (w : SplitSet) (K : ℕ) (i : ℤ) :
    Option (List ℤ) :=
  (get_cross_validation_indices labels w K i).map (fun idxs =>
    ((batchList 100 (idxs.map (fun idx => to_categorical (labels.getD idx 0)))).map
      (fun batch => batch.map (fun row => (argmaxList row : ℤ)))).flatten)

/-- A Python parameter value, covering the shapes stored in the reader's
`parameters` dictionary. -/
inductive PVal
  | bool (b : Bool)
  | nat (n : ℕ)
  | int (i : ℤ)
  | str (s : String)
deriving DecidableEq, Repr

/-- Python dict assignment `d[k] = v` on an association list with unique
keys: overwrite in place when the key is present, append otherwise. -/
def dictSet : List (String × PVal) → String → PVal → List (String × PVal)
  | [], k, v => [(k, v)]
  | (k', v') :: rest, k, v =>
    if k' = k then (k, v) :: rest else (k', v') :: dictSet rest k v

/-- The effect of `get_labels` on the caller's `parameters` dictionary:
`parameters = parameters or {}` rebinds the local name to a fresh dict
when the caller's dict is empty (falsy), leaving the caller's dict
untouched; otherwise `parameters["shuffle"] = False` mutates the caller's
dict in place. -/
def get_labels_param_effect (d : List (String × PVal)) :
    List (String × PVal) :=
  if d = [] then d else dictSet d "shuffle" (PVal.bool false)

/-- The frozen seven→three conversion mapping
`{0: 2, 1: 0, 2: 2, 3: 0, 4: 2, 5: 2, 6: 1}` (the `conversion_dict` that
`tests/data/test_balanced_image_data_reader.py` checks the readers
against). -/
def conversion_dict : Fin 7 → Fin 3
  | 0 => 2
  | 1 => 0
  | 2 => 2
  | 3 => 0
  | 4 => 2
  | 5 => 2
  | 6 => 1

/-! ### Infrastructure lemmas -/

theorem get?_sliceList {α : Type} (xs : List α) (lo hi q : ℕ)
    (hq : q < hi - lo) :
    (sliceList xs lo hi).get? q = xs.get? (lo + q) := by
  unfold sliceList
  rw [List.get?_take hq, List.get?_drop]

theorem mem_sliceList {α : Type} {xs : List α} {lo hi : ℕ} {x : α} :
    x ∈ sliceList xs lo hi ↔ ∃ p, lo ≤ p ∧ p < hi ∧ xs.get? p = some x := by
  constructor
  · intro hx
    obtain ⟨q, hq⟩ := List.mem_iff_get?.mp hx
    have hqlen : q < (sliceList xs lo hi).length := by
      have := List.get?_eq_some.mp hq
      exact this.1
    have hqlt : q < hi - lo := by
      have : (sliceList xs lo hi).length ≤ hi - lo := by
        unfold sliceList
        exact (List.length_take _ _).le.trans (Nat.min_le_left _ _)
      omega
    refine ⟨lo + q, Nat.le_add_right _ _, by omega, ?_⟩
    rw [← get?_sliceList xs lo hi q hqlt]
    exact hq
  · rintro ⟨p, hlo, hhi, hp⟩
    have hq : p - lo < hi - lo := by omega
    have := get?_sliceList xs lo hi (p - lo) hq
    rw [show lo + (p - lo) = p by omega] at this
    exact List.get?_mem (this.trans hp)

theorem sliceList_append {α : Type} (xs : List α) {a b c : ℕ}
    (hab : a ≤ b) (hbc : b ≤ c) :
    sliceList xs a b ++ sliceList xs b c = sliceList xs a c := by
  unfold sliceList
  rw [show c - a = (b - a) + (c - b) by omega, List.take_add]
  congr 1
  rw [List.drop_drop, show a + (b - a) = b by omega]

theorem sliceList_sublist {α : Type} (xs : List α) (lo hi : ℕ) :
    (sliceList xs lo hi).Sublist xs :=
  (List.take_sublist _ _).trans (List.drop_sublist _ _)

theorem mem_emotion_samples {labels : List ℤ} {c : ℤ} {x : ℕ} :
    x ∈ emotion_samples labels c ↔ labels.get? x = some c := by
  unfold emotion_samples
  rw [List.mem_filter, List.mem_range]
  constructor
  · rintro ⟨-, h⟩
    exact of_decide_eq_true h
  · intro h
    exact ⟨(List.get?_eq_some.mp h).1, decide_eq_true h⟩

theorem emotion_samples_nodup (labels : List ℤ) (c : ℤ) :
    (emotion_samples labels c).Nodup :=
  (List.nodup_range _).filter _

theorem nodup_get?_inj {α : Type} {l : List α} (hl : l.Nodup) {p q : ℕ}
    {x : α} (hp : l.get? p = some x) (hq : l.get? q = some x) : p = q := by
  obtain ⟨hp1, hp2⟩ := List.get?_eq_some.mp hp
  obtain ⟨hq1, hq2⟩ := List.get?_eq_some.mp hq
  have hg : l.get ⟨p, hp1⟩ = l.get ⟨q, hq1⟩ := by rw [hp2, hq2]
  exact congrArg Fin.val ((List.Nodup.get_inj_iff hl).mp hg)

theorem emotion_samples_label {labels : List ℤ} {c : ℤ} {p x : ℕ}
    (h : (emotion_samples labels c).get? p = some x) :
    labels.get? x = some c :=
  mem_emotion_samples.mp (List.get?_mem h)

theorem borders_get? {n K j : ℕ} (hj : j < K + 1) :
    (borders n K).get? j = some (j * n / K) := by
  unfold borders
  rw [List.get?_map, List.get?_range hj]
  rfl

theorem borders_length (n K : ℕ) : (borders n K).length = K + 1 := by
  simp [borders]

theorem pyGet_borders_ofNat {n K : ℕ} {j : ℤ} (h0 : 0 ≤ j)
    (hK : j ≤ (K : ℤ)) :
    pyGet (borders n K) j = j.toNat * n / K := by
  unfold pyGet
  rw [if_neg (by omega), List.getD_eq_getD_get?,
    borders_get? (by omega : j.toNat < K + 1)]
  rfl

theorem pyGet_borders_neg {n K : ℕ} {j : ℤ} (hneg : j < 0)
    (hj : -((K : ℤ) + 1) ≤ j) :
    pyGet (borders n K) j = ((K : ℤ) + 1 + j).toNat * n / K := by
  unfold pyGet
  rw [if_pos hneg, List.getD_eq_getD_get?, borders_length]
  rw [borders_get? (by omega : ((K + 1 : ℕ) + j).toNat < K + 1)]
  rfl

theorem bord_mono {n K j j' : ℕ} (h : j ≤ j') : j * n / K ≤ j' * n / K :=
  Nat.div_le_div_right (Nat.mul_le_mul_right n h)

theorem bord_last {n K : ℕ} (hK : 1 ≤ K) : K * n / K = n :=
  Nat.mul_div_cancel_left n (by omega)

theorem classSlice_pos {labels : List ℤ} {K : ℕ} {c : ℤ} {s : ℤ}
    (h1 : 1 ≤ s) (h2 : s ≤ (K : ℤ)) :
    classSlice labels K c s =
      sliceList (emotion_samples labels c)
        ((s.toNat - 1) * (emotion_samples labels c).length / K)
        (s.toNat * (emotion_samples labels c).length / K) := by
  unfold classSlice
  rw [pyGet_borders_ofNat (by omega) (by omega),
    pyGet_borders_ofNat (by omega) h2,
    show (s - 1).toNat = s.toNat - 1 by omega]

theorem classSlice_neg_one {labels : List ℤ} {K : ℕ} {c : ℤ} (hK : 1 ≤ K) :
    classSlice labels K c (-1) =
      sliceList (emotion_samples labels c)
        ((K - 1) * (emotion_samples labels c).length / K)
        (K * (emotion_samples labels c).length / K) := by
  unfold classSlice
  rw [pyGet_borders_neg (by omega) (by omega),
    pyGet_borders_neg (by omega) (by omega),
    show ((K : ℤ) + 1 + (-1 - 1)).toNat = K - 1 by omega,
    show ((K : ℤ) + 1 + (-1)).toNat = K by omega]

theorem testClassSlice_eq {labels : List ℤ} {K : ℕ} {i : ℕ} (hi : i < K)
    (c : ℤ) :
    testClassSlice labels K (i : ℤ) c =
      sliceList (emotion_samples labels c)
        ((K - i - 1) * (emotion_samples labels c).length / K)
        ((K - i) * (emotion_samples labels c).length / K) := by
  unfold testClassSlice
  rw [classSlice_pos (by omega) (by omega),
    show ((K : ℤ) - (i : ℤ)).toNat = K - i by omega,
    show K - i - 1 = K - i - 1 by rfl]

theorem mem_classSlice_label {labels : List ℤ} {K : ℕ} {c : ℤ} {s : ℤ}
    {x : ℕ} (hx : x ∈ classSlice labels K c s) : labels.get? x = some c := by
  unfold classSlice at hx
  obtain ⟨p, -, -, hp⟩ := mem_sliceList.mp hx
  exact emotion_samples_label hp

theorem mem_classBranch_label {labels : List ℤ} {w : SplitSet} {K : ℕ}
    {i : ℤ} {c : ℤ} {x : ℕ} (hx : x ∈ classBranch labels w K i c) :
    labels.get? x = some c := by
  cases w with
  | TEST => exact mem_classSlice_label hx
  | VAL => exact mem_classSlice_label hx
  | TRAIN =>
    obtain ⟨s, hs, hxs⟩ := List.mem_flatten.mp hx
    obtain ⟨j, -, rfl⟩ := List.mem_map.mp hs
    exact mem_classSlice_label hxs
  | ALL => cases hx

theorem mem_cvSelect {labels : List ℤ} {w : SplitSet} {K : ℕ} {i : ℤ}
    {x : ℕ} :
    x ∈ cvSelect labels w K i ↔
      ∃ c : ℕ, c < 7 ∧ x ∈ classBranch labels w K i (c : ℤ) := by
  unfold cvSelect
  rw [(List.perm_insertionSort _ _).mem_iff, List.mem_flatten]
  constructor
  · rintro ⟨s, hs, hxs⟩
    obtain ⟨c, hc, rfl⟩ := List.mem_map.mp hs
    exact ⟨c, List.mem_range.mp hc, hxs⟩
  · rintro ⟨c, hc, hxs⟩
    exact ⟨_, List.mem_map.mpr ⟨c, List.mem_range.mpr hc, rfl⟩, hxs⟩

theorem mem_cvSelect_label {labels : List ℤ} {w : SplitSet} {K : ℕ} {i : ℤ}
    {x : ℕ} (hx : x ∈ cvSelect labels w K i) :
    ∃ c : ℕ, c < 7 ∧ labels.get? x = some (c : ℤ) := by
  obtain ⟨c, hc, hxs⟩ := mem_cvSelect.mp hx
  exact ⟨c, hc, mem_classBranch_label hxs⟩

theorem testClassSlice_disjoint {labels : List ℤ} {K : ℕ} {i j : ℕ}
    (hi : i < K) (hj : j < K) (hne : i ≠ j) (c : ℤ) {x : ℕ}
    (hx : x ∈ testClassSlice labels K (i : ℤ) c) :
    x ∉ testClassSlice labels K (j : ℤ) c := by
  intro hx'
  rw [testClassSlice_eq hi] at hx
  rw [testClassSlice_eq hj] at hx'
  obtain ⟨p, hp1, hp2, hp3⟩ := mem_sliceList.mp hx
  obtain ⟨q, hq1, hq2, hq3⟩ := mem_sliceList.mp hx'
  have hpq : p = q := nodup_get?_inj (emotion_samples_nodup labels c) hp3 hq3
  subst hpq
  rcases Nat.lt_or_ge i j with hij | hij
  · have : (K - i - 1) * (emotion_samples labels c).length / K ≥
        (K - j) * (emotion_samples labels c).length / K :=
      bord_mono (by omega)
    omega
  · have hij' : j < i := by omega
    have : (K - j - 1) * (emotion_samples labels c).length / K ≥
        (K - i) * (emotion_samples labels c).length / K :=
      bord_mono (by omega)
    omega

theorem exists_test_fold {n K p : ℕ} (hK : 1 ≤ K) (hp : p < n) :
    ∃ k, 1 ≤ k ∧ k ≤ K ∧ (k - 1) * n / K ≤ p ∧ p < k * n / K := by
  have hex : ∃ k, p < k * n / K := ⟨K, by rw [bord_last hK]; exact hp⟩
  refine ⟨Nat.find hex, ?_, Nat.find_min' hex (by rw [bord_last hK]; exact hp), ?_, Nat.find_spec hex⟩
  · by_contra h
    have h0 : Nat.find hex = 0 := by omega
    have := Nat.find_spec hex
    rw [h0] at this
    simp at this
  · have h1 : 1 ≤ Nat.find hex := by
      by_contra h
      have h0 : Nat.find hex = 0 := by omega
      have := Nat.find_spec hex
      rw [h0] at this
      simp at this
    have := Nat.find_min hex (m := Nat.find hex - 1) (by omega)
    omega

theorem classSlice_nodup (labels : List ℤ) (K : ℕ) (c s : ℤ) :
    (classSlice labels K c s).Nodup := by
  unfold classSlice
  exact List.Nodup.sublist (sliceList_sublist _ _ _)
    (emotion_samples_nodup labels c)

theorem cvSelect_TEST_nodup (labels : List ℤ) (K : ℕ) (i : ℤ) :
    (cvSelect labels SplitSet.TEST K i).Nodup := by
  unfold cvSelect
  rw [(List.perm_insertionSort _ _).nodup_iff, List.nodup_flatten]
  constructor
  · intro s hs
    obtain ⟨c, -, rfl⟩ := List.mem_map.mp hs
    exact classSlice_nodup labels K (c : ℤ) _
  · rw [List.pairwise_map]
    refine List.Pairwise.imp_of_mem ?_ (List.pairwise_lt_range 7)
    intro a b _ _ hab x hxa hxb
    have ha := mem_classBranch_label hxa
    have hb := mem_classBranch_label hxb
    rw [ha] at hb
    have : (a : ℤ) = (b : ℤ) := Option.some.inj hb
    omega

theorem cvSelect_TEST_disjoint {labels : List ℤ} {K : ℕ} {i j : ℕ}
    (hi : i < K) (hj : j < K) (hne : i ≠ j) {x : ℕ}
    (hx : x ∈ cvSelect labels SplitSet.TEST K (i : ℤ)) :
    x ∉ cvSelect labels SplitSet.TEST K (j : ℤ) := by
  intro hx'
  obtain ⟨c, hc, hxc⟩ := mem_cvSelect.mp hx
  obtain ⟨c', hc', hxc'⟩ := mem_cvSelect.mp hx'
  have h1 := mem_classBranch_label hxc
  have h2 := mem_classBranch_label hxc'
  rw [h1] at h2
  have : ((c : ℤ)) = ((c' : ℤ)) := Option.some.inj h2
  have hcc : c = c' := by omega
  subst hcc
  exact testClassSlice_disjoint hi hj hne (c : ℤ) hxc hxc'

/-- The list the `Set.ALL` branch returns: the concatenation of the TEST
selections over `cv_index = 0..K-1`. -/
def allConcat (labels : List ℤ) (K : ℕ) : List ℕ :=
  ((List.range K).map
    (fun ci : ℕ => cvSelect labels SplitSet.TEST K (ci : ℤ))).flatten

theorem cv_indices_ALL (labels : List ℤ) (K : ℕ) (i : ℤ) :
    get_cross_validation_indices labels SplitSet.ALL K i =
      some (allConcat labels K) := by
  unfold get_cross_validation_indices allConcat
  rw [if_pos rfl]

theorem cv_indices_valid {labels : List ℤ} {w : SplitSet} {K : ℕ} {i : ℤ}
    (hw : w ≠ SplitSet.ALL) (h0 : 0 ≤ i) (h1 : i ≤ (K : ℤ) - 1) :
    get_cross_validation_indices labels w K i = some (cvSelect labels w K i) := by
  unfold get_cross_validation_indices
  rw [if_neg hw, if_pos ⟨h1, h0⟩]

theorem mem_allConcat {labels : List ℤ} {K : ℕ} {x : ℕ} :
    x ∈ allConcat labels K ↔
      ∃ ci : ℕ, ci < K ∧ x ∈ cvSelect labels SplitSet.TEST K (ci : ℤ) := by
  unfold allConcat
  rw [List.mem_flatten]
  constructor
  · rintro ⟨s, hs, hxs⟩
    obtain ⟨ci, hci, rfl⟩ := List.mem_map.mp hs
    exact ⟨ci, List.mem_range.mp hci, hxs⟩
  · rintro ⟨ci, hci, hxs⟩
    exact ⟨_, List.mem_map.mpr ⟨ci, List.mem_range.mpr hci, rfl⟩, hxs⟩

theorem mem_allConcat_iff {labels : List ℤ} {K : ℕ} (hK : 1 ≤ K) {x : ℕ} :
    x ∈ allConcat labels K ↔
      ∃ l, labels.get? x = some l ∧ 0 ≤ l ∧ l < 7 := by
  rw [mem_allConcat]
  constructor
  · rintro ⟨ci, hci, hx⟩
    obtain ⟨c, hc, hlab⟩ := mem_cvSelect_label hx
    exact ⟨(c : ℤ), hlab, by omega, by omega⟩
  · rintro ⟨l, hlab, hl0, hl7⟩
    have hxmem : x ∈ emotion_samples labels l := mem_emotion_samples.mpr hlab
    obtain ⟨p, hp⟩ := List.mem_iff_get?.mp hxmem
    have hplen : p < (emotion_samples labels l).length :=
      (List.get?_eq_some.mp hp).1
    obtain ⟨k, hk1, hk2, hk3, hk4⟩ :=
      exists_test_fold (n := (emotion_samples labels l).length) hK hplen
    refine ⟨K - k, by omega, ?_⟩
    rw [mem_cvSelect]
    refine ⟨l.toNat, by omega, ?_⟩
    show x ∈ testClassSlice labels K ((K - k : ℕ) : ℤ) ((l.toNat : ℕ) : ℤ)
    rw [Int.toNat_of_nonneg hl0, testClassSlice_eq (by omega)]
    rw [show K - (K - k) - 1 = k - 1 by omega, show K - (K - k) = k by omega]
    exact mem_sliceList.mpr ⟨p, hk3, hk4, hp⟩

theorem allConcat_nodup (labels : List ℤ) (K : ℕ) :
    (allConcat labels K).Nodup := by
  unfold allConcat
  rw [List.nodup_flatten]
  constructor
  · intro s hs
    obtain ⟨ci, -, rfl⟩ := List.mem_map.mp hs
    exact cvSelect_TEST_nodup labels K (ci : ℤ)
  · rw [List.pairwise_map]
    refine List.Pairwise.imp_of_mem ?_ (List.pairwise_lt_range K)
    intro a b ha hb hab x hxa hxb
    exact cvSelect_TEST_disjoint (List.mem_range.mp ha) (List.mem_range.mp hb)
      (by omega) hxa hxb

/-! ### Claim theorems -/

/-- C1: for every label array and every `cv_splits K ≥ 1`, the TEST index
lists returned by `get_cross_validation_indices` for
`cv_index = 0..K-1` are pairwise disjoint; for every class `c ∈ 0..6`
their union restricted to class `c` is exactly the set of positions
labelled `c`; and the `Set.ALL` result is a duplicate-free covering of
all positions whose label lies in `0..6`. -/
theorem C1_test_partition (labels : List ℤ) (K : ℕ) (hK : 1 ≤ K) :
    (∀ i j : ℕ, i < K → j < K → i ≠ j →
      ∀ outI outJ,
        get_cross_validation_indices labels SplitSet.TEST K (i : ℤ) = some outI →
        get_cross_validation_indices labels SplitSet.TEST K (j : ℤ) = some outJ →
        ∀ x, x ∈ outI → x ∉ outJ) ∧
    (∀ c : ℤ, 0 ≤ c → c < 7 → ∀ idx : ℕ,
      ((∃ i : ℕ, i < K ∧ ∃ out,
          get_cross_validation_indices labels SplitSet.TEST K (i : ℤ) = some out ∧
          idx ∈ out) ∧ labels.get? idx = some c) ↔ labels.get? idx = some c) ∧
    (∀ i : ℤ, ∀ outAll,
      get_cross_validation_indices labels SplitSet.ALL K i = some outAll →
      outAll.Nodup ∧
      ∀ idx : ℕ, idx ∈ outAll ↔ ∃ l, labels.get? idx = some l ∧ 0 ≤ l ∧ l < 7) := by
  refine ⟨?_, ?_, ?_⟩
  · intro i j hi hj hne outI outJ hOutI hOutJ x hx
    rw [cv_indices_valid (by simp) (by omega) (by omega)] at hOutI hOutJ
    obtain rfl : cvSelect labels SplitSet.TEST K (i : ℤ) = outI :=
      Option.some.inj hOutI
    obtain rfl : cvSelect labels SplitSet.TEST K (j : ℤ) = outJ :=
      Option.some.inj hOutJ
    exact cvSelect_TEST_disjoint hi hj hne hx
  · intro c hc0 hc7 idx
    constructor
    · rintro ⟨-, h⟩
      exact h
    · intro hlab
      refine ⟨?_, hlab⟩
      have : idx ∈ allConcat labels K :=
        (mem_allConcat_iff hK).mpr ⟨c, hlab, hc0, hc7⟩
      obtain ⟨ci, hci, hx⟩ := mem_allConcat.mp this
      exact ⟨ci, hci, cvSelect labels SplitSet.TEST K (ci : ℤ),
        cv_indices_valid (by simp) (by omega) (by omega), hx⟩
  · intro i outAll hOut
    rw [cv_indices_ALL] at hOut
    obtain rfl : allConcat labels K = outAll := Option.some.inj hOut
    exact ⟨allConcat_nodup labels K, fun idx => mem_allConcat_iff hK⟩

/-- C1 witness: the partition theorem applied to the concrete corpus
`[0, 0, 1, 1]` with `K = 2`: TEST fold 0 is `[1, 3]`, TEST fold 1 is
`[0, 2]`, and they are disjoint. -/
theorem C1_test_partition_witness : (3 : ℕ) ∉ ([0, 2] : List ℕ) :=
  (C1_test_partition [0, 0, 1, 1] 2 (by decide)).1 0 1 (by decide) (by decide)
    (by decide) [1, 3] [0, 2] (by decide) (by decide) 3 (by decide)

/-- C3: for every `cv_splits K ≥ 1` and `cv_index i ∈ [0, K)`, the VAL
selection takes fold slice `k_val = (K - 1 - i) mod K` of each class's
border slices — that is, the elements at positions
`[borders[k_val - 1], borders[k_val])` of the class's sample list —
except that when `k_val = 0` it is decremented to `-1`, so that the final
slice `[borders[K-1], borders[K])` is taken; in particular when
`i = K - 1` the VAL slice is the class's last slice `K`. -/
theorem C3_val_fold (labels : List ℤ) (K : ℕ) (i : ℕ) (hK : 1 ≤ K)
    (hi : i < K) :
    get_cross_validation_indices labels SplitSet.VAL K (i : ℤ) =
      some (cvSelect labels SplitSet.VAL K (i : ℤ)) ∧
    ∀ c : ℤ,
      (i + 1 < K →
        valClassSlice labels K (i : ℤ) c =
          sliceList (emotion_samples labels c)
            ((K - 1 - i - 1) * (emotion_samples labels c).length / K)
            ((K - 1 - i) * (emotion_samples labels c).length / K)) ∧
      (i + 1 = K →
        valClassSlice labels K (i : ℤ) c =
          sliceList (emotion_samples labels c)
            ((K - 1) * (emotion_samples labels c).length / K)
            (K * (emotion_samples labels c).length / K)) := by
  have hmod : ((K : ℤ) - 1 - (i : ℤ)) % (K : ℤ) = (K : ℤ) - 1 - (i : ℤ) :=
    Int.emod_eq_of_lt (by omega) (by omega)
  refine ⟨cv_indices_valid (by simp) (by omega) (by omega), fun c => ⟨?_, ?_⟩⟩
  · intro hlt
    unfold valClassSlice
    rw [hmod]
    have hne : (K : ℤ) - 1 - (i : ℤ) ≠ 0 := by omega
    rw [show foldCorrect ((K : ℤ) - 1 - (i : ℤ)) = (K : ℤ) - 1 - (i : ℤ) from
      if_neg hne]
    rw [classSlice_pos (by omega) (by omega),
      show ((K : ℤ) - 1 - (i : ℤ)).toNat = K - 1 - i by omega]
  · intro heq
    unfold valClassSlice
    rw [hmod, show (K : ℤ) - 1 - (i : ℤ) = 0 by omega]
    rw [show foldCorrect 0 = -1 from if_pos rfl]
    exact classSlice_neg_one hK

/-- C3 witness: on corpus `[0, 0, 1, 1]` with `K = 2` and `i = K - 1 = 1`
the VAL slice of class 0 is the class's last slice. -/
theorem C3_val_fold_witness :
    valClassSlice [0, 0, 1, 1] 2 ((1 : ℕ) : ℤ) 0 =
      sliceList (emotion_samples [0, 0, 1, 1] 0)
        ((2 - 1) * (emotion_samples [0, 0, 1, 1] 0).length / 2)
        (2 * (emotion_samples [0, 0, 1, 1] 0).length / 2) :=
  ((C3_val_fold [0, 0, 1, 1] 2 1 (by decide) (by decide)).2 0).2 (by decide)

/-- C7 counterexample: on the corpus `[0, 0, 1, 1]` with `cv_splits = 2`,
`get_cross_validation_indices` under `Set.ALL` returns `[1, 3, 0, 2]`,
which is not sorted ascending — the ALL branch returns the concatenation
of the TEST lists without sorting it. -/
theorem C7_counterexample :
    get_cross_validation_indices [0, 0, 1, 1] SplitSet.ALL 2 0 =
      some [1, 3, 0, 2] ∧
    ¬ List.Sorted (· ≤ ·) ([1, 3, 0, 2] : List ℕ) := by
  constructor
  · decide
  · decide

/-- C7 (amended): the index list returned by
`get_cross_validation_indices` is sorted ascending for TRAIN, VAL and
TEST; the ALL result is the concatenation of the per-`cv_index` TEST
lists, each individually sorted, but the concatenation itself is not
sorted in general. -/
theorem C7_sorted (labels : List ℤ) (w : SplitSet) (K : ℕ) (i : ℤ) :
    (w ≠ SplitSet.ALL →
      ∀ out, get_cross_validation_indices labels w K i = some out →
        List.Sorted (· ≤ ·) out) ∧
    (∀ out, get_cross_validation_indices labels SplitSet.ALL K i = some out →
      out = allConcat labels K ∧
      ∀ ci : ℕ, ci < K →
        List.Sorted (· ≤ ·) (cvSelect labels SplitSet.TEST K (ci : ℤ))) := by
  constructor
  · intro hw out hout
    unfold get_cross_validation_indices at hout
    rw [if_neg hw] at hout
    by_cases hcond : ((K : ℤ) - 1 ≥ i ∧ i ≥ 0)
    · rw [if_pos hcond] at hout
      obtain rfl : cvSelect labels w K i = out := Option.some.inj hout
      exact List.sorted_insertionSort _ _
    · rw [if_neg hcond] at hout
      cases hout
  · intro out hout
    rw [cv_indices_ALL] at hout
    obtain rfl : allConcat labels K = out := Option.some.inj hout
    exact ⟨rfl, fun ci _ => List.sorted_insertionSort _ _⟩

/-- C7 witness: the TEST list for corpus `[0, 0, 1, 1]`, `K = 2`,
`cv_index = 1` is `[0, 2]` and the theorem yields its sortedness. -/
theorem C7_sorted_witness : List.Sorted (· ≤ ·) ([0, 2] : List ℕ) :=
  (C7_sorted [0, 0, 1, 1] SplitSet.TEST 2 1).1 (by decide) [0, 2] (by decide)

/-- C8 counterexample: with `which_set = Set.ALL`, `cv_splits = 5` and the
out-of-range `cv_index = 99`, `get_cross_validation_indices` returns
normally instead of failing the assertion: the ALL branch overwrites
`cv_index` with `0..4` before recursing and never checks the caller's
value. -/
theorem C8_counterexample :
    get_cross_validation_indices [0, 0, 1, 1] SplitSet.ALL 5 99 ≠ none := by
  decide

/-- C8 (amended): for TRAIN, VAL and TEST a `cv_index` outside
`[0, cv_splits - 1]` fails the assertion (modelled as `none`); the ALL
branch ignores the caller's `cv_index` entirely and always returns the
concatenated TEST selections. -/
theorem C8_assert (labels : List ℤ) (w : SplitSet) (K : ℕ) (i : ℤ) :
    (w ≠ SplitSet.ALL → (i < 0 ∨ (K : ℤ) - 1 < i) →
      get_cross_validation_indices labels w K i = none) ∧
    get_cross_validation_indices labels SplitSet.ALL K i =
      some (allConcat labels K) := by
  constructor
  · intro hw hrange
    unfold get_cross_validation_indices
    rw [if_neg hw, if_neg (by rintro ⟨h1, h2⟩; omega)]
  · exact cv_indices_ALL labels K i

/-- C8 witness: `cv_index = 7` with `cv_splits = 5` under TEST hits the
assertion. -/
theorem C8_assert_witness :
    get_cross_validation_indices [0, 0, 1, 1] SplitSet.TEST 5 7 = none :=
  (C8_assert [0, 0, 1, 1] SplitSet.TEST 5 7).1 (by decide) (by decide)

theorem pyRange_length (start stop step : ℕ) :
    (pyRange start stop step).length = (stop - start + step - 1) / step := by
  simp [pyRange]

theorem file_windows_length (all_labels : ℕ → ℕ → ℤ)
    (index window hop : ℕ) (csv : List CsvRow) :
    (file_windows all_labels index window hop csv).length =
      (csv.length - window + hop - 1) / hop := by
  simp [file_windows, pyRange]

theorem pyRange_lt {start stop step j : ℕ}
    (hj : j < (pyRange start stop step).length) : start + j * step < stop := by
  rw [pyRange_length] at hj
  rcases Nat.eq_zero_or_pos step with hz | hpos
  · subst hz
    rw [Nat.div_zero] at hj
    omega
  · have h1 : (j + 1) * step ≤
        ((stop - start + step - 1) / step) * step :=
      Nat.mul_le_mul_right step (by omega)
    have h2 : ((stop - start + step - 1) / step) * step ≤
        stop - start + step - 1 := Nat.div_mul_le_self _ _
    have h3 : j * step + step ≤ stop - start + step - 1 := by
      rw [← Nat.succ_mul]
      exact h1.trans h2
    clear h1 h2 hj
    omega

theorem ceil_div_of_not_dvd {m h : ℕ} (hh : 1 ≤ h) (hnd : ¬ h ∣ m) :
    (m + h - 1) / h = m / h + 1 := by
  have hmod := Nat.div_add_mod m h
  have hr : m % h ≠ 0 := fun h0 => hnd (Nat.dvd_of_mod_eq_zero h0)
  have hrlt : m % h < h := Nat.mod_lt _ (by omega)
  rw [show m + h - 1 = (m % h - 1) + h * (m / h + 1) by
      rw [Nat.mul_succ]
      omega,
    Nat.add_mul_div_left _ _ (by omega : 0 < h),
    Nat.div_eq_of_lt (by omega), Nat.zero_add]

/-- C5 counterexample: a CSV of length 4 with `window = 2` and `hop = 2`
emits exactly one window (`range(2, 4, 2) = [2]`), while the spec's
formula `⌊(len - window) / hop⌋ + 1` predicts 2. -/
theorem C5_counterexample :
    (file_windows (fun _ _ => 0) 0 2 2
      [⟨[5], 0⟩, ⟨[6], 1⟩, ⟨[7], 2⟩, ⟨[8], 3⟩]).length = 1 ∧
    (4 - 2) / 2 + 1 = 2 := by
  constructor
  · decide
  · decide

/-- C5 (amended): for `hop ≥ 1` the number of windows emitted for one
present CSV before label-filtering is `⌊(len - window + hop - 1) / hop⌋`
(the ceiling of `(len - window) / hop`, and 0 when `len ≤ window`); this
agrees with the spec's `⌊(len - window) / hop⌋ + 1` exactly when `hop`
does not divide `len - window`. -/
theorem C5_window_count (all_labels : ℕ → ℕ → ℤ) (index window hop : ℕ)
    (csv : List CsvRow) (hh : 1 ≤ hop) :
    (file_windows all_labels index window hop csv).length =
      (csv.length - window + hop - 1) / hop ∧
    (¬ hop ∣ (csv.length - window) →
      (file_windows all_labels index window hop csv).length =
        (csv.length - window) / hop + 1) := by
  refine ⟨file_windows_length all_labels index window hop csv, fun hnd => ?_⟩
  rw [file_windows_length, ceil_div_of_not_dvd hh hnd]

/-- C5 witness: a CSV of length 3 with `window = 2`, `hop = 2` emits
`⌊(3 - 2 + 2 - 1) / 2⌋ = 1` window. -/
theorem C5_window_count_witness :
    (file_windows (fun _ _ => 0) 0 2 2
      [⟨[5], 0⟩, ⟨[6], 1⟩, ⟨[7], 2⟩]).length =
      (([⟨[5], 0⟩, ⟨[6], 1⟩, ⟨[7], 2⟩] : List CsvRow).length - 2 + 2 - 1) / 2 :=
  (C5_window_count (fun _ _ => 0) 0 2 2 _ (by decide)).1

/-- C4: the `j`-th window emitted for a present CSV file ends at row index
`second = window + j·hop`, spans the feature rows
`[second - window, second)` of the file, and carries the label
`all_labels[index, Second[second]]`: the reconciled label looked up at
the `Second`-column value of the row at the window's terminal index
`second`. -/
theorem C4_window_layout (all_labels : ℕ → ℕ → ℤ) (index window hop : ℕ)
    (csv : List CsvRow) (j : ℕ)
    (hj : j < (file_windows all_labels index window hop csv).length) :
    window + j * hop < csv.length ∧
      (file_windows all_labels index window hop csv).get? j =
        some (sliceList (csv.map CsvRow.features)
            (window + j * hop - window) (window + j * hop),
          all_labels index (csv.getD (window + j * hop) default).second) := by
  rw [file_windows_length] at hj
  have hbound : window + j * hop < csv.length := pyRange_lt (by
    rw [pyRange_length]
    exact hj)
  have hpy : (pyRange window csv.length hop).get? j =
      some (window + j * hop) := by
    unfold pyRange
    rw [List.get?_map, List.get?_range hj]
    rfl
  refine ⟨hbound, ?_⟩
  unfold file_windows
  rw [List.get?_map, hpy]
  rfl

/-- C4 witness: for a four-row CSV with `window = 2`, `hop = 1`, window 0
ends at row 2, spans rows `[0, 2)` and is labelled at `Second[2] = 2`. -/
theorem C4_window_layout_witness :
    2 + 0 * 1 <
      ([⟨[10], 0⟩, ⟨[11], 1⟩, ⟨[12], 2⟩, ⟨[13], 3⟩] : List CsvRow).length ∧
    (file_windows (fun _ s => (s : ℤ)) 0 2 1
        [⟨[10], 0⟩, ⟨[11], 1⟩, ⟨[12], 2⟩, ⟨[13], 3⟩]).get? 0 =
      some (sliceList
          (([⟨[10], 0⟩, ⟨[11], 1⟩, ⟨[12], 2⟩,
            ⟨[13], 3⟩] : List CsvRow).map CsvRow.features)
          (2 + 0 * 1 - 2) (2 + 0 * 1),
        (fun _ s => (s : ℤ)) 0
          (([⟨[10], 0⟩, ⟨[11], 1⟩, ⟨[12], 2⟩,
            ⟨[13], 3⟩] : List CsvRow).getD (2 + 0 * 1) default).second) :=
  C4_window_layout (fun _ s => (s : ℤ)) 0 2 1
    [⟨[10], 0⟩, ⟨[11], 1⟩, ⟨[12], 2⟩, ⟨[13], 3⟩] 0 (by decide)

theorem get_raw_expected_labels_range (schedule : List (Fin 7 × ℕ × ℕ))
    (p s : ℕ) :
    0 ≤ get_raw_expected_labels schedule p s ∧
      get_raw_expected_labels schedule p s < 7 := by
  unfold get_raw_expected_labels
  have key : ∀ (l : List (Fin 7 × ℕ × ℕ)) (init : ℤ), 0 ≤ init → init < 7 →
      0 ≤ l.foldl
          (fun acc e =>
            if expected_start e.2.1 ≤ s ∧ s < e.2.2 then ((e.1 : ℕ) : ℤ)
            else acc) init ∧
        l.foldl
          (fun acc e =>
            if expected_start e.2.1 ≤ s ∧ s < e.2.2 then ((e.1 : ℕ) : ℤ)
            else acc) init < 7 := by
    intro l
    induction l with
    | nil => intro init h0 h7; exact ⟨h0, h7⟩
    | cons e tl ih =>
      intro init h0 h7
      rw [List.foldl_cons]
      by_cases hcond : expected_start e.2.1 ≤ s ∧ s < e.2.2
      · rw [if_pos hcond]
        have := e.1.isLt
        exact ih _ (by positivity) (by exact_mod_cast this)
      · rw [if_neg hcond]
        exact ih _ h0 h7
  exact key schedule 0 le_rfl (by norm_num)

theorem both_label_cases (schedule : List (Fin 7 × ℕ × ℕ))
    (faceapi : ℕ → ℕ → ℤ) (p s : ℕ) :
    get_raw_labels_both schedule faceapi p s = -1 ∨
      (0 ≤ get_raw_labels_both schedule faceapi p s ∧
        get_raw_labels_both schedule faceapi p s < 7) := by
  unfold get_raw_labels_both
  by_cases h : get_raw_expected_labels schedule p s = faceapi p s
  · right
    rw [if_pos h]
    exact get_raw_expected_labels_range schedule p s
  · left
    rw [if_neg h]

theorem raw_corpus_label_shape {all_labels : ℕ → ℕ → ℤ} {window hop : ℕ}
    {participants : List (List (Option (List CsvRow)))}
    {pr : List (List ℤ) × ℤ}
    (h : pr ∈ raw_corpus all_labels window hop participants) :
    pr.2 ≠ -1 ∧ ∃ index s, pr.2 = all_labels index s := by
  unfold raw_corpus at h
  rw [List.mem_flatten] at h
  obtain ⟨blk, hblk, hprb⟩ := h
  obtain ⟨pe, hpe, rfl⟩ := List.mem_map.mp hblk
  rw [List.mem_filter] at hprb
  obtain ⟨hmem, hne⟩ := hprb
  refine ⟨of_decide_eq_true hne, ?_⟩
  unfold participant_windows at hmem
  rw [List.mem_flatten] at hmem
  obtain ⟨t, ht, hprt⟩ := hmem
  obtain ⟨f, hf, rfl⟩ := List.mem_map.mp ht
  cases f with
  | none => cases hprt
  | some csv =>
    unfold file_windows at hprt
    obtain ⟨sec, hsec, rfl⟩ := List.mem_map.mp hprt
    exact ⟨pe.1, (csv.getD sec default).second, rfl⟩

/-- C2: under `label_mode = "both"` the per-(participant, second) label
equals the expected-schedule label wherever the expected and faceapi
labels agree and equals the sentinel `-1` wherever they disagree; and
after `get_raw_data` materialises the corpus, every entry of `raw_labels`
is in `{0..6}` and none is `-1` (the `-1`-labelled windows are dropped
together with their feature windows). -/
theorem C2_both_mode (schedule : List (Fin 7 × ℕ × ℕ))
    (faceapi : ℕ → ℕ → ℤ) (window hop : ℕ)
    (participants : List (List (Option (List CsvRow)))) :
    (∀ p s,
      (get_raw_expected_labels schedule p s = faceapi p s →
        get_raw_labels_both schedule faceapi p s =
          get_raw_expected_labels schedule p s) ∧
      (get_raw_expected_labels schedule p s ≠ faceapi p s →
        get_raw_labels_both schedule faceapi p s = -1)) ∧
    (∀ pr ∈ raw_corpus (get_raw_labels_both schedule faceapi) window hop
        participants,
      0 ≤ pr.2 ∧ pr.2 < 7 ∧ pr.2 ≠ -1) := by
  constructor
  · intro p s
    unfold get_raw_labels_both
    exact ⟨fun h => if_pos h, fun h => if_neg h⟩
  · intro pr hpr
    obtain ⟨hne, index, s, heq⟩ := raw_corpus_label_shape hpr
    rcases both_label_cases schedule faceapi index s with h | h
    · rw [← heq] at h
      exact absurd h hne
    · rw [heq]
      exact ⟨h.1, h.2, by rw [← heq]; exact hne⟩

/-- C2 witness: a concrete corpus under `both` mode.  The schedule labels
seconds `[0, 10)` with emotion 3; the faceapi trace disagrees at second 2
only; windows of a four-row CSV (`window = 2`, `hop = 1`) end at seconds
2 and 3, the first is dropped as `-1`, and the surviving corpus entry has
label 3 ∈ {0..6}. -/
theorem C2_both_mode_witness :
    0 ≤ (([[11], [12]], (3 : ℤ)) : List (List ℤ) × ℤ).2 ∧
      (([[11], [12]], (3 : ℤ)) : List (List ℤ) × ℤ).2 < 7 ∧
      (([[11], [12]], (3 : ℤ)) : List (List ℤ) × ℤ).2 ≠ -1 :=
  (C2_both_mode [((3 : Fin 7), 0, 10)]
      (fun _ s => if s = 2 then 5 else 3) 2 1
      [[some [⟨[10], 0⟩, ⟨[11], 1⟩, ⟨[12], 2⟩, ⟨[13], 3⟩]]]).2
    ([[11], [12]], 3) (by decide)

theorem batchList_flatten {α : Type} (b : ℕ) (hb : 1 ≤ b) :
    ∀ (n : ℕ) (xs : List α), xs.length ≤ n →
      (batchList b xs).flatten = xs := by
  intro n
  induction n with
  | zero =>
    intro xs hxs
    cases xs with
    | nil => simp [batchList]
    | cons x rest => simp at hxs
  | succ n ih =>
    intro xs hxs
    cases xs with
    | nil => simp [batchList]
    | cons x rest =>
      rw [batchList, List.flatten_cons,
        ih (rest.drop (b - 1)) (by
          rw [List.length_drop]
          simp at hxs
          omega)]
      cases b with
      | zero => omega
      | succ b' =>
        rw [List.take_succ_cons, Nat.succ_sub_one]
        rw [List.cons_append, List.take_append_drop]

theorem argmax_to_categorical {v : ℤ} (h0 : 0 ≤ v) (h7 : v < 7) :
    ((argmaxList (to_categorical v) : ℕ) : ℤ) = v := by
  interval_cases v <;> decide

theorem getD_label_range {labels : List ℤ}
    (hlab : ∀ l ∈ labels, 0 ≤ l ∧ l < 7) (idx : ℕ) :
    0 ≤ labels.getD idx 0 ∧ labels.getD idx 0 < 7 := by
  rcases Nat.lt_or_ge idx labels.length with h | h
  · rw [List.getD_eq_get labels 0 h]
    exact hlab _ (List.get_mem labels idx h)
  · rw [List.getD_eq_default labels 0 h]
    norm_num

/-- C9: for every split and every valid parameter set, the flat integer
vector returned by `get_labels` — obtained by batching the unshuffled
one-hot label stream into batches of 100 and concatenating the per-row
argmaxes — equals the plain label sequence observed when iterating the
unshuffled dataset, i.e. the raw labels at the cross-validation indices
in order. -/
theorem C9_get_labels_refinement (labels : List ℤ) (w : SplitSet) (K : ℕ)
    (i : ℤ) (hlab : ∀ l ∈ labels, 0 ≤ l ∧ l < 7) (out : List ℕ)
    (hout : get_cross_validation_indices labels w K i = some out) :
    get_labels labels w K i =
      some (out.map (fun idx => labels.getD idx 0)) := by
  unfold get_labels
  rw [hout, Option.map_some']
  congr 1
  rw [← List.map_flatten,
    batchList_flatten 100 (by norm_num) _ _ le_rfl, List.map_map]
  refine List.map_congr_left ?_
  intro idx _
  show ((argmaxList (to_categorical (labels.getD idx 0)) : ℕ) : ℤ) =
    labels.getD idx 0
  obtain ⟨h0, h7⟩ := getD_label_range hlab idx
  exact argmax_to_categorical h0 h7

/-- C9 witness: on the corpus `[0, 1, 2]` with `K = 1` the TEST split is
`[0, 1, 2]` and `get_labels` returns exactly those labels. -/
theorem C9_get_labels_refinement_witness :
    get_labels [0, 1, 2] SplitSet.TEST 1 0 =
      some ([0, 1, 2].map (fun idx => ([0, 1, 2] : List ℤ).getD idx 0)) :=
  C9_get_labels_refinement [0, 1, 2] SplitSet.TEST 1 0 (by decide)
    [0, 1, 2] (by decide)

theorem dictSet_lookup_self :
    ∀ (d : List (String × PVal)) (k : String) (v : PVal),
      (dictSet d k v).lookup k = some v := by
  intro d
  induction d with
  | nil =>
    intro k v
    simp [dictSet, List.lookup]
  | cons hd tl ih =>
    intro k v
    obtain ⟨k', v'⟩ := hd
    unfold dictSet
    by_cases h : k' = k
    · rw [if_pos h]
      simp [List.lookup]
    · rw [if_neg h]
      have hbeq : (k == k') = false := by
        rw [beq_eq_false_iff_ne]
        exact fun hkk => h hkk.symm
      simp [List.lookup, hbeq, ih]

theorem dictSet_lookup_ne :
    ∀ (d : List (String × PVal)) (k : String) (v : PVal) {k'' : String},
      k'' ≠ k → (dictSet d k v).lookup k'' = d.lookup k'' := by
  intro d
  induction d with
  | nil =>
    intro k v k'' hne
    have hbeq : (k'' == k) = false := beq_eq_false_iff_ne.mpr hne
    simp [dictSet, List.lookup, hbeq]
  | cons hd tl ih =>
    intro k v k'' hne
    obtain ⟨k', v'⟩ := hd
    unfold dictSet
    by_cases h : k' = k
    · rw [if_pos h]
      have hbeq : (k'' == k) = false := beq_eq_false_iff_ne.mpr hne
      have hbeq' : (k'' == k') = false := by
        rw [h]
        exact hbeq
      simp [List.lookup, hbeq, hbeq']
    · rw [if_neg h]
      by_cases hk : k'' = k'
      · subst hk
        simp [List.lookup]
      · have hbeq : (k'' == k') = false := beq_eq_false_iff_ne.mpr hk
        simp [List.lookup, hbeq, ih k v hne]

/-- C10: for every non-empty `parameters` dictionary, `get_labels`
mutates the caller-owned dictionary by setting
`parameters["shuffle"] = False`; after the call the caller's dictionary
has `shuffle` forced to `False` regardless of its previous value, and no
other key is changed by `get_labels` itself. -/
theorem C10_param_mutation (d : List (String × PVal)) (hd : d ≠ []) :
    (get_labels_param_effect d).lookup "shuffle" = some (PVal.bool false) ∧
    ∀ k : String, k ≠ "shuffle" →
      (get_labels_param_effect d).lookup k = d.lookup k := by
  unfold get_labels_param_effect
  rw [if_neg hd]
  exact ⟨dictSet_lookup_self d _ _, fun k hk => dictSet_lookup_ne d _ _ hk⟩

/-- C10 witness: a dictionary that held `shuffle = True` has it forced to
`False`, while its `cv_index` entry is untouched. -/
theorem C10_param_mutation_witness :
    (get_labels_param_effect
        [("shuffle", PVal.bool true), ("cv_index", PVal.nat 3)]).lookup
      "shuffle" = some (PVal.bool false) ∧
    (get_labels_param_effect
        [("shuffle", PVal.bool true), ("cv_index", PVal.nat 3)]).lookup
      "cv_index" =
      [("shuffle", PVal.bool true),
        ("cv_index", PVal.nat 3)].lookup "cv_index" :=
  ⟨(C10_param_mutation
      [("shuffle", PVal.bool true), ("cv_index", PVal.nat 3)]
      (by decide)).1,
    (C10_param_mutation
      [("shuffle", PVal.bool true), ("cv_index", PVal.nat 3)]
      (by decide)).2 "cv_index" (by decide)⟩

/-- C6 counterexample: the preimage of three-class 0 under the frozen
seven→three mapping is `{1, 3}` with 2 elements, not 4 as the claim
states. -/
theorem C6_counterexample :
    (Finset.univ.filter (fun x : Fin 7 => conversion_dict x = 0)).card ≠ 4 := by
  decide

/-- C6 (amended): pushing the uniform seven-class distribution through
the frozen seven→three conversion yields the three-class distribution
`{0: 2/7, 1: 1/7, 2: 4/7}`: the preimage of class 0 has 2 elements, of
class 1 has 1 element, and of class 2 has 4 elements. -/
theorem C6_three_class_distribution :
    (Finset.univ.filter (fun x : Fin 7 => conversion_dict x = 0)).card = 2 ∧
    (Finset.univ.filter (fun x : Fin 7 => conversion_dict x = 1)).card = 1 ∧
    (Finset.univ.filter (fun x : Fin 7 => conversion_dict x = 2)).card = 4 ∧
    ((Finset.univ.filter
        (fun x : Fin 7 => conversion_dict x = 0)).card : ℚ) / 7 = 2 / 7 ∧
    ((Finset.univ.filter
        (fun x : Fin 7 => conversion_dict x = 1)).card : ℚ) / 7 = 1 / 7 ∧
    ((Finset.univ.filter
        (fun x : Fin 7 => conversion_dict x = 2)).card : ℚ) / 7 = 4 / 7 := by
  refine ⟨by decide, by decide, by decide, ?_, ?_, ?_⟩
  · rw [show (Finset.univ.filter
        (fun x : Fin 7 => conversion_dict x = 0)).card = 2 from by decide]
    norm_num
  · rw [show (Finset.univ.filter
        (fun x : Fin 7 => conversion_dict x = 1)).card = 1 from by decide]
    norm_num
  · rw [show (Finset.univ.filter
        (fun x : Fin 7 => conversion_dict x = 2)).card = 4 from by decide]
    norm_num

end WatchReader
